import Mathlib

/-!
Verification of the DAG-based quadruple optimizer in `src/main.cpp`.

The C++ core is shallowly embedded below:
* `Quadruple`, `DAGNode` mirror the structs of the same names;
* `DAGState` packages the three pieces of `DAGOptimizer` state
  (`nodes`, `varToNode`, `exprToNode`);
* `evaluateConstant`, `getNodeForValue`, `buildStep`/`buildDAG` mirror
  `DAGOptimizer::evaluateConstant`, `DAGOptimizer::getNodeForValue` and
  `DAGOptimizer::buildDAG`;
* `generateQuadruples` mirrors `DAGOptimizer::generateQuadruples`
  (the recursive `processNode` lambda becomes a fuel-indexed function;
  the fuel `nodes.length + 1` dominates the recursion depth because each
  recursive step moves to an operand node, and on states built by
  `buildDAG` operand ids are strictly smaller than the node id);
* C++ `int` is modelled as `Int`; `std::stoi` as `cppStoi`, returning
  `none` where the C++ call would throw `std::invalid_argument`;
  exceptions escaping the optimizer are modelled by `Except OptError`;
* the hash maps are modelled as association lists with unique keys
  (`lookupMap`/`insertMap`); iteration order of `varToNode` is irrelevant
  to the program because the ids it yields are poured into a sorted
  `std::set` (`requiredList`).

A naive simulator (`simRun`), modelled from the spec's "binding
preservation" property, interprets a quadruple sequence over symbolic
values and is used to compare input and output sequences.
-/

structure Quadruple where
  op : String
  arg1 : String
  arg2 : String
  result : String
deriving Repr, DecidableEq

structure DAGNode where
  id : Int
  op : String
  left : Int
  right : Int
  aliases : List String
deriving Repr, DecidableEq

def DAGNode.isLeaf (n : DAGNode) : Bool :=
  n.left == -1 && n.right == -1

structure DAGState where
  nodes : List DAGNode
  varToNode : List (String × Int)
  exprToNode : List (String × Int)
deriving Repr, DecidableEq

def dummyNode : DAGNode := ⟨0, "", -1, -1, []⟩

def nodeAt (nodes : List DAGNode) (i : Int) : DAGNode :=
  nodes.getD i.toNat dummyNode

/-- The character test used throughout `main.cpp`:
`std::all_of(s.begin(), s.end(), [](char c){ return isdigit(c) || c == '-'; })`.
Note that it accepts strings such as `"-"`, `"--"` and `"1-2"`, and is
(vacuously) true on the empty string. -/
def codeNumeric (s : String) : Bool :=
  s.data.all (fun c => c.isDigit || c == '-')

def specNumericL : List Char → Bool
  | [] => false
  | c :: ds => if c = '-' then !ds.isEmpty && ds.all Char.isDigit
               else (c :: ds).all Char.isDigit

/-- The spec's notion of a numeric literal: a nonempty token consisting
solely of digits with an optional leading minus sign. -/
def specNumeric (s : String) : Bool :=
  specNumericL s.data

def digitsVal (ds : List Char) : Nat :=
  ds.foldl (fun a c => a * 10 + (c.toNat - 48)) 0

def specValueL : List Char → Int
  | [] => 0
  | c :: ds => if c = '-' then -(digitsVal ds : Int) else (digitsVal (c :: ds) : Int)

/-- Numeric value of a spec-numeric literal token. -/
def specValue (s : String) : Int :=
  specValueL s.data

def cppStoiL (l : List Char) : Option Int :=
  let cs := l.dropWhile Char.isWhitespace
  let neg := cs.headD ' ' = '-'
  let cs2 := if cs.headD ' ' = '-' ∨ cs.headD ' ' = '+' then cs.tail else cs
  let ds := cs2.takeWhile Char.isDigit
  if ds.isEmpty then none
  else if neg then some (-(digitsVal ds : Int)) else some ((digitsVal ds : Int))

/-- Model of `std::stoi`: skip leading whitespace, an optional single sign,
then read a maximal run of digits; `none` models the
`std::invalid_argument` exception thrown when no digit is found. -/
def cppStoi (s : String) : Option Int :=
  cppStoiL s.data

inductive OptError where
  | invalidArgument
  | outOfRange
deriving Repr, DecidableEq

/-- `DAGOptimizer::evaluateConstant`. Returns `.ok (some r)` when the fold
succeeds with textual result `r`, `.ok none` when the function returns
`false`, and `.error .invalidArgument` when `std::stoi` throws. -/
def evaluateConstant (op arg1 arg2 : String) : Except OptError (Option String) :=
  let isNum1 := !(arg1 = "") && codeNumeric arg1
  let isNum2 := (arg2 = "") || codeNumeric arg2
  if !isNum1 || !isNum2 then .ok none
  else
    match cppStoi arg1 with
    | none => .error .invalidArgument
    | some val1 =>
      match (if arg2 = "" then some 0 else cppStoi arg2) with
      | none => .error .invalidArgument
      | some val2 =>
        if op = "+" then .ok (some (toString (val1 + val2)))
        else if op = "-" then .ok (some (toString (val1 - val2)))
        else if op = "*" then .ok (some (toString (val1 * val2)))
        else if op = "/" then
          if val2 = 0 then .ok none
          else .ok (some (toString (Int.tdiv val1 val2)))
        else .ok none

def lookupMap : List (String × Int) → String → Option Int
  | [], _ => none
  | p :: m, k => if p.1 = k then some p.2 else lookupMap m k

/-- `unordered_map::operator[]` followed by assignment: update in place if
the key is present, otherwise add the binding. -/
def insertMap : List (String × Int) → String → Int → List (String × Int)
  | [], k, v => [(k, v)]
  | p :: m, k, v => if p.1 = k then (k, v) :: m else p :: insertMap m k v

def appendAliasAt (nodes : List DAGNode) (i : Nat) (a : String) : List DAGNode :=
  match nodes.get? i with
  | some n => nodes.set i { n with aliases := n.aliases ++ [a] }
  | none => nodes

/-- `DAGOptimizer::getNodeForValue`. Returns the (possibly extended) state
and the resulting node id (`-1` for the empty token). -/
def getNodeForValue (s : DAGState) (value : String) : DAGState × Int :=
  if value = "" then (s, -1)
  else
    match lookupMap s.varToNode value with
    | some nid => (s, nid)
    | none =>
      let nid : Int := s.nodes.length
      let nodes1 := s.nodes ++ [⟨nid, value, -1, -1, []⟩]
      if codeNumeric value then ({ s with nodes := nodes1 }, nid)
      else
        ({ s with
            nodes := appendAliasAt nodes1 nid.toNat value,
            varToNode := insertMap s.varToNode value nid }, nid)

/-- `varToNode[result] = nid; getNode(nid).aliases.push_back(result);` —
the `getNode` bounds check is the defensive `std::out_of_range` throw. -/
def bindAlias (s : DAGState) (res : String) (nid : Int) : Except OptError DAGState :=
  let s1 := { s with varToNode := insertMap s.varToNode res nid }
  if nid < 0 ∨ (s1.nodes.length : Int) ≤ nid then .error .outOfRange
  else .ok { s1 with nodes := appendAliasAt s1.nodes nid.toNat res }

/-- Key of the expression signature index, exactly as built by
`findCommonExpr`/`registerExpr`: `op + "_" + to_string(l) + "_" + to_string(r)`. -/
def exprKey (op : String) (l r : Int) : String :=
  op ++ "_" ++ toString l ++ "_" ++ toString r

def resolveOperands (s : DAGState) (q : Quadruple) : DAGState × Int × Int :=
  let p1 := getNodeForValue s q.arg1
  let p2 := if q.arg2 = "" then (p1.1, -1) else getNodeForValue p1.1 q.arg2
  (p2.1, p1.2, p2.2)

/-- The general (non-folded) operation path of `buildDAG`: resolve both
operands, then either reuse a common subexpression or create a new
operation node. -/
def generalOpPath (s : DAGState) (q : Quadruple) : Except OptError DAGState :=
  let r := resolveOperands s q
  let s2 := r.1
  let leftId := r.2.1
  let rightId := r.2.2
  match lookupMap s2.exprToNode (exprKey q.op leftId rightId) with
  | some existing => bindAlias s2 q.result existing
  | none =>
    let nid : Int := s2.nodes.length
    let s3 := { s2 with
        nodes := s2.nodes ++ [⟨nid, q.op, leftId, rightId, []⟩],
        exprToNode := insertMap s2.exprToNode (exprKey q.op leftId rightId) nid }
    bindAlias s3 q.result nid

/-- One iteration of the loop in `DAGOptimizer::buildDAG`. -/
def buildStep (s : DAGState) (q : Quadruple) : Except OptError DAGState :=
  if q.op = "=" then
    if q.arg1 = "" then .ok s
    else
      let p := getNodeForValue s q.arg1
      bindAlias p.1 q.result p.2
  else
    match evaluateConstant q.op q.arg1 q.arg2 with
    | .error e => .error e
    | .ok (some constResult) =>
      let p := getNodeForValue s constResult
      bindAlias p.1 q.result p.2
    | .ok none => generalOpPath s q

def emptyState : DAGState := ⟨[], [], []⟩

/-- `DAGOptimizer::buildDAG`. -/
def buildDAG (qs : List Quadruple) : Except OptError DAGState :=
  qs.foldlM buildStep emptyState

/-- Operand representation used when emitting an operation node: the
operand node's first alias if it has one, else its raw leaf token; empty
when the operand id is out of range (in particular for the absent operand
`-1`). -/
def reprOf (nodes : List DAGNode) (i : Int) : String :=
  if i < 0 then ""
  else if (nodes.length : Int) ≤ i then ""
  else
    match (nodeAt nodes i).aliases with
    | a :: _ => a
    | [] => (nodeAt nodes i).op

/-- The operation quadruple emitted for node `i`:
`(op, leftRepr, rightRepr, firstAlias)`. -/
def opQuadOf (nodes : List DAGNode) (i : Int) : Quadruple :=
  let n := nodeAt nodes i
  ⟨n.op, reprOf nodes n.left, reprOf nodes n.right, n.aliases.headD ""⟩

/-- Instructions emitted when node `i` is visited (the body of the
`processNode` lambda after the recursive calls). -/
def emitFor (nodes : List DAGNode) (i : Int) : List Quadruple :=
  let n := nodeAt nodes i
  if n.isLeaf = false then
    match n.aliases with
    | [] => []
    | a :: rest => opQuadOf nodes i :: rest.map (fun al => ⟨"=", a, "", al⟩)
  else if codeNumeric n.op then
    n.aliases.map (fun al => ⟨"=", n.op, "", al⟩)
  else
    match n.aliases with
    | a :: b :: rest => (b :: rest).map (fun al => ⟨"=", a, "", al⟩)
    | _ => []

/-- The recursive `processNode` lambda of `generateQuadruples`, with an
explicit fuel bounding the recursion depth. The state is the `processed`
array paired with the output accumulator. -/
def processNode (nodes : List DAGNode) :
    Nat → Int → List Bool × List Quadruple → List Bool × List Quadruple
  | 0, _, st => st
  | fuel + 1, i, st =>
    if i < 0 then st
    else if (nodes.length : Int) ≤ i then st
    else if st.1.getD i.toNat false then st
    else
      let n := nodeAt nodes i
      let st1 := if n.left != -1 then processNode nodes fuel n.left st else st
      let st2 := if n.right != -1 then processNode nodes fuel n.right st1 else st1
      (st2.1.set i.toNat true, st2.2 ++ emitFor nodes i)

def insertSorted (x : Int) : List Int → List Int
  | [] => [x]
  | y :: ys =>
    if x < y then x :: y :: ys
    else if x = y then y :: ys
    else y :: insertSorted x ys

/-- The `required` set: ids referenced by the bindings map that are in
range, iterated in ascending order (a `std::set<int>`). -/
def requiredList (s : DAGState) : List Int :=
  (s.varToNode.map Prod.snd).foldl
    (fun acc v =>
      if v < 0 then acc
      else if (s.nodes.length : Int) ≤ v then acc
      else insertSorted v acc) []

/-- `DAGOptimizer::generateQuadruples`. -/
def generateQuadruples (s : DAGState) : List Quadruple :=
  if s.nodes.length = 0 then []
  else
    ((requiredList s).foldl
      (fun st r => processNode s.nodes (s.nodes.length + 1) r st)
      (List.replicate s.nodes.length false, [])).2

/-- The whole pipeline run by `main`: build the DAG, then emit. -/
def optimize (qs : List Quadruple) : Except OptError (List Quadruple) :=
  (buildDAG qs).map generateQuadruples

/-! ### Naive simulator

Modelled from the spec: "for every variable name bound by the input
sequence, the output sequence, when interpreted by a naive simulator, must
bind that name to the same final numeric/symbolic value".  Values are
integers, symbols (initial values of variables) or symbolic operator
applications; arithmetic on two integers is evaluated (division only by a
nonzero divisor), so that a folded constant compares equal to the
computation it replaced. -/

inductive SimVal where
  | num (n : Int)
  | sym (s : String)
  | una (op : String) (a : SimVal)
  | bin (op : String) (a b : SimVal)
deriving Repr, DecidableEq

def lookupEnv : List (String × SimVal) → String → Option SimVal
  | [], _ => none
  | p :: env, k => if p.1 = k then some p.2 else lookupEnv env k

def insertEnv : List (String × SimVal) → String → SimVal → List (String × SimVal)
  | [], k, v => [(k, v)]
  | p :: env, k, v => if p.1 = k then (k, v) :: env else p :: insertEnv env k v

def simTok (env : List (String × SimVal)) (t : String) : SimVal :=
  if specNumeric t then .num (specValue t)
  else
    match lookupEnv env t with
    | some v => v
    | none => .sym t

def simBin (op : String) (a b : SimVal) : SimVal :=
  match a, b with
  | .num x, .num y =>
    if op = "+" then .num (x + y)
    else if op = "-" then .num (x - y)
    else if op = "*" then .num (x * y)
    else if op = "/" then
      if y = 0 then .bin op (.num x) (.num y) else .num (Int.tdiv x y)
    else .bin op (.num x) (.num y)
  | _, _ => .bin op a b

def simStep (env : List (String × SimVal)) (q : Quadruple) :
    List (String × SimVal) :=
  if q.op = "=" then
    if q.arg1 = "" then env
    else insertEnv env q.result (simTok env q.arg1)
  else if q.arg2 = "" then
    insertEnv env q.result (.una q.op (simTok env q.arg1))
  else
    insertEnv env q.result (simBin q.op (simTok env q.arg1) (simTok env q.arg2))

def simRun (qs : List Quadruple) : List (String × SimVal) :=
  qs.foldl simStep []

/-! ### Reachability in the DAG

`Reach nodes i j` holds when the emitter's traversal starting at node `i`
can reach node `j` by following `left`/`right` operand edges. -/

inductive Reach (nodes : List DAGNode) : Int → Int → Prop
  | refl (i : Int) : Reach nodes i i
  | viaLeft (i k : Int) : ¬ i < 0 → ¬ (nodes.length : Int) ≤ i →
      (nodeAt nodes i).left ≠ -1 →
      Reach nodes (nodeAt nodes i).left k → Reach nodes i k
  | viaRight (i k : Int) : ¬ i < 0 → ¬ (nodes.length : Int) ≤ i →
      (nodeAt nodes i).right ≠ -1 →
      Reach nodes (nodeAt nodes i).right k → Reach nodes i k

/-- The instruction `q` is one the emitter can produce while visiting the
subgraph rooted at node `i`: either a copy, or the operation emission of
some node reachable from `i`. -/
def EmittedFrom (nodes : List DAGNode) (i : Int) (q : Quadruple) : Prop :=
  q.op = "=" ∨
    ∃ n : Int, Reach nodes i n ∧ (nodeAt nodes n).isLeaf = false ∧
      ¬ (nodeAt nodes n).aliases = [] ∧ q = opQuadOf nodes n

/-- Two-operand integer arithmetic as performed by `evaluateConstant`
(`/` is C++ `int` division, truncation toward zero). -/
def arithOp (op : String) (x y : Int) : Int :=
  if op = "+" then x + y
  else if op = "-" then x - y
  else if op = "*" then x * y
  else Int.tdiv x y

/-- The ten-instruction sample block hardcoded in `main`. -/
def sampleInput : List Quadruple :=
  [⟨"*", "A", "B", "T1"⟩,
   ⟨"/", "6", "2", "T2"⟩,
   ⟨"-", "T1", "T2", "T3"⟩,
   ⟨"=", "T3", "", "X"⟩,
   ⟨"=", "5", "", "C"⟩,
   ⟨"*", "A", "B", "T4"⟩,
   ⟨"=", "2", "", "C"⟩,
   ⟨"+", "18", "C", "T5"⟩,
   ⟨"*", "T4", "T5", "T6"⟩,
   ⟨"=", "T6", "", "Y"⟩]

/-- The sequence the optimizer actually emits for `sampleInput`. -/
def sampleOutput : List Quadruple :=
  [⟨"*", "A", "B", "T1"⟩,
   ⟨"=", "T1", "", "T4"⟩,
   ⟨"=", "3", "", "T2"⟩,
   ⟨"-", "T1", "T2", "T3"⟩,
   ⟨"=", "T3", "", "X"⟩,
   ⟨"=", "2", "", "C"⟩,
   ⟨"+", "18", "C", "T5"⟩,
   ⟨"*", "T1", "T5", "T6"⟩,
   ⟨"=", "T6", "", "Y"⟩]

/-- The state built from `[(*, A, B, T1)]`; used to exercise the CSE and
traversal theorems on a concrete instance. -/
def sC3 : DAGState :=
  ⟨[⟨0, "A", -1, -1, ["A"]⟩, ⟨1, "B", -1, -1, ["B"]⟩, ⟨2, "*", 0, 1, ["T1"]⟩],
   [("A", 0), ("B", 1), ("T1", 2)], [("*_0_1", 2)]⟩

/-- An input whose first instruction computes a value whose only binding
`T1` is later rebound, leaving no name bound to the computed node, while
the computation still feeds the live `T2`. -/
def deadInput : List Quadruple :=
  [⟨"+", "A", "B", "T1"⟩, ⟨"-", "T1", "C", "T2"⟩, ⟨"=", "5", "", "T1"⟩]

/-- The state `buildDAG` produces from `deadInput`. -/
def deadState : DAGState :=
  ⟨[⟨0, "A", -1, -1, ["A"]⟩, ⟨1, "B", -1, -1, ["B"]⟩, ⟨2, "+", 0, 1, ["T1"]⟩,
    ⟨3, "C", -1, -1, ["C"]⟩, ⟨4, "-", 2, 3, ["T2"]⟩, ⟨5, "5", -1, -1, ["T1"]⟩],
   [("A", 0), ("B", 1), ("T1", 5), ("C", 3), ("T2", 4)],
   [("+_0_1", 2), ("-_2_3", 4)]⟩

/-- An input where the textual result of a constant fold, `"6"`, is already
a key of the bindings map because an earlier copy used `6` as its result
field. -/
def shadowInput : List Quadruple :=
  [⟨"=", "A", "", "6"⟩, ⟨"+", "3", "3", "X"⟩]

/-- The state `buildDAG` produces from `shadowInput`: `X` ends up bound to
the leaf node holding the variable `A`, not to a literal `6`. -/
def shadowState : DAGState :=
  ⟨[⟨0, "A", -1, -1, ["A", "6", "X"]⟩], [("A", 0), ("6", 0), ("X", 0)], []⟩

/-- The state `buildDAG` produces from `[(=, A, , 5)]`: the numeric token
`"5"` (the result field of the copy) becomes a key of the bindings map. -/
def numKeyState : DAGState :=
  ⟨[⟨0, "A", -1, -1, ["A", "5"]⟩], [("A", 0), ("5", 0)], []⟩

/-- An input on which re-optimizing the optimizer's output changes the
final binding of `R2`: the first pass keeps the two `f` computations apart
(their left operands are the two distinct nodes `A` was bound to), but it
renders the second one as `(f, Q, B, R2)`; on the second pass both resolve
to the same operand nodes, CSE merges them, and the copy rebinding `R2` is
hoisted above the instruction `(g, R2, W, S)`-dependency block that re-emits
the dead `(e, U, V, R2)` computation. -/
def idemInput : List Quadruple :=
  [⟨"e", "U", "V", "R2"⟩,
   ⟨"=", "Q", "", "D"⟩,
   ⟨"f", "A", "B", "R1"⟩,
   ⟨"=", "Q", "", "A"⟩,
   ⟨"g", "R2", "W", "S"⟩,
   ⟨"f", "A", "B", "R2"⟩]

/-- First-pass output for `idemInput`. -/
def idemOut1 : List Quadruple :=
  [⟨"=", "Q", "", "D"⟩,
   ⟨"=", "Q", "", "A"⟩,
   ⟨"f", "A", "B", "R1"⟩,
   ⟨"e", "U", "V", "R2"⟩,
   ⟨"g", "R2", "W", "S"⟩,
   ⟨"f", "Q", "B", "R2"⟩]

/-- Second-pass output, i.e. the optimizer applied to `idemOut1`. -/
def idemOut2 : List Quadruple :=
  [⟨"=", "Q", "", "D"⟩,
   ⟨"=", "Q", "", "A"⟩,
   ⟨"f", "Q", "B", "R1"⟩,
   ⟨"=", "R1", "", "R2"⟩,
   ⟨"e", "U", "V", "R2"⟩,
   ⟨"g", "R2", "W", "S"⟩]

/-! ### Helper lemmas about characters, digit strings and `cppStoi` -/

theorem takeWhile_eq_self_of_all {α : Type} (p : α → Bool) (l : List α)
    (h : l.all p = true) : l.takeWhile p = l := by
  induction l with
  | nil => rfl
  | cons a l ih =>
    rw [List.all_cons, Bool.and_eq_true] at h
    rw [List.takeWhile_cons, if_pos h.1, ih h.2]

theorem isDigit_not_ws (c : Char) (h : c.isDigit = true) : c.isWhitespace = false := by
  cases hb : c.isWhitespace with
  | false => rfl
  | true =>
    exfalso
    unfold Char.isWhitespace at hb
    simp only [Bool.or_eq_true, decide_eq_true_eq] at hb
    rcases hb with ((rfl | rfl) | rfl) | rfl <;> exact absurd h (by decide)

theorem isDigit_ne_minus (c : Char) (h : c.isDigit = true) : ¬ c = '-' := by
  rintro rfl; exact absurd h (by decide)

theorem isDigit_ne_plus (c : Char) (h : c.isDigit = true) : ¬ c = '+' := by
  rintro rfl; exact absurd h (by decide)

theorem cppStoiL_specNumericL (l : List Char) (h : specNumericL l = true) :
    cppStoiL l = some (specValueL l) := by
  cases l with
  | nil => exact absurd h (by decide)
  | cons c ds =>
    rw [specNumericL] at h
    rw [cppStoiL, specValueL]
    by_cases hc : c = '-'
    · subst hc
      rw [if_pos rfl] at h
      rw [Bool.and_eq_true, Bool.not_eq_true'] at h
      have hcs : List.dropWhile Char.isWhitespace ('-' :: ds) = '-' :: ds := by
        rw [List.dropWhile_cons, show Char.isWhitespace '-' = false from by decide]
        simp
      simp [hcs, takeWhile_eq_self_of_all Char.isDigit ds h.2, h.1]
    · rw [if_neg hc] at h
      have h1 : c.isDigit = true := by
        rw [List.all_cons, Bool.and_eq_true] at h; exact h.1
      have hcs : List.dropWhile Char.isWhitespace (c :: ds) = c :: ds := by
        rw [List.dropWhile_cons, isDigit_not_ws c h1]
        simp
      simp [hcs, hc, isDigit_ne_plus c h1,
        takeWhile_eq_self_of_all Char.isDigit (c :: ds) h]

theorem cppStoi_specNumeric (s : String) (h : specNumeric s = true) :
    cppStoi s = some (specValue s) :=
  cppStoiL_specNumericL s.data h

theorem specNumericL_imp_code (l : List Char) (h : specNumericL l = true) :
    l.all (fun c => c.isDigit || c == '-') = true := by
  cases l with
  | nil => rfl
  | cons c ds =>
    rw [specNumericL] at h
    rw [List.all_eq_true]
    intro x hx
    by_cases hc : c = '-'
    · subst hc
      rw [if_pos rfl, Bool.and_eq_true] at h
      rcases List.mem_cons.mp hx with rfl | hx'
      · simp
      · have h2 := h.2
        rw [List.all_eq_true] at h2
        simp [h2 x hx']
    · rw [if_neg hc] at h
      rw [List.all_eq_true] at h
      simp [h x hx]

theorem specNumeric_imp_codeNumeric (s : String) (h : specNumeric s = true) :
    codeNumeric s = true :=
  specNumericL_imp_code s.data h

theorem codeNumeric_false_specNumeric_false (s : String)
    (h : codeNumeric s = false) : specNumeric s = false := by
  cases hb : specNumeric s with
  | false => rfl
  | true => rw [specNumeric_imp_codeNumeric s hb] at h; exact absurd h (by decide)

theorem specNumeric_ne_empty (s : String) (h : specNumeric s = true) : ¬ s = "" := by
  intro he
  subst he
  exact absurd h (by decide)

theorem digitChar_isDigit (m : Nat) (h : m < 10) : (Nat.digitChar m).isDigit = true := by
  interval_cases m <;> decide

theorem toDigitsCore_all_digit (fuel : Nat) :
    ∀ (n : Nat) (ds : List Char), ds.all Char.isDigit = true →
      (Nat.toDigitsCore 10 fuel n ds).all Char.isDigit = true := by
  induction fuel with
  | zero => intro n ds h; rw [Nat.toDigitsCore]; exact h
  | succ fuel ih =>
    intro n ds h
    rw [Nat.toDigitsCore]
    have hd : ((n % 10).digitChar.isDigit) = true :=
      digitChar_isDigit _ (Nat.mod_lt _ (by norm_num))
    split
    · rw [List.all_cons, hd, h]; rfl
    · exact ih _ _ (by rw [List.all_cons, hd, h]; rfl)

theorem toDigitsCore_ne_nil (fuel : Nat) :
    ∀ (n : Nat) (ds : List Char), ds ≠ [] → Nat.toDigitsCore 10 fuel n ds ≠ [] := by
  induction fuel with
  | zero => intro n ds h; rw [Nat.toDigitsCore]; exact h
  | succ fuel ih =>
    intro n ds _
    rw [Nat.toDigitsCore]
    split
    · exact List.cons_ne_nil _ _
    · exact ih _ _ (List.cons_ne_nil _ _)

theorem toDigits_ne_nil (n : Nat) : Nat.toDigits 10 n ≠ [] := by
  show Nat.toDigitsCore 10 (n + 1) n [] ≠ []
  rw [Nat.toDigitsCore]
  split
  · exact List.cons_ne_nil _ _
  · exact toDigitsCore_ne_nil _ _ _ (List.cons_ne_nil _ _)

theorem natRepr_all_digit (n : Nat) : (Nat.repr n).data.all Char.isDigit = true :=
  toDigitsCore_all_digit (n + 1) n [] rfl

theorem codeNumeric_intRepr (n : Int) : codeNumeric (toString n) = true := by
  show codeNumeric (Int.repr n) = true
  unfold codeNumeric
  rw [List.all_eq_true]
  intro c hc
  cases n with
  | ofNat m =>
    have hmem : c ∈ (Nat.repr m).data := hc
    have hd := natRepr_all_digit m
    rw [List.all_eq_true] at hd
    simp [hd c hmem]
  | negSucc m =>
    have hmem : c ∈ ("-" ++ Nat.repr (m + 1)).data := hc
    rw [String.data_append] at hmem
    rcases List.mem_append.mp hmem with h1 | h1
    · have hcm : c = '-' := by simpa using h1
      simp [hcm]
    · have hd := natRepr_all_digit (m + 1)
      rw [List.all_eq_true] at hd
      simp [hd c h1]

theorem intRepr_ne_empty (n : Int) : ¬ toString n = "" := by
  intro h
  have hdata : (toString n).data = [] := by rw [h]
  cases n with
  | ofNat m => exact toDigits_ne_nil m hdata
  | negSucc m =>
    rw [show (toString (Int.negSucc m)).data = ("-" ++ Nat.repr (m + 1)).data from rfl,
      String.data_append] at hdata
    exact absurd hdata (by simp)

/-! ### Helper lemmas about the association-list maps -/

theorem lookupMap_insertMap_self (m : List (String × Int)) (k : String) (v : Int) :
    lookupMap (insertMap m k v) k = some v := by
  induction m with
  | nil => simp [insertMap, lookupMap]
  | cons p m ih =>
    rw [insertMap]
    by_cases hk : p.1 = k
    · rw [if_pos hk, lookupMap, if_pos rfl]
    · rw [if_neg hk, lookupMap, if_neg hk]
      exact ih

theorem mem_insertMap (m : List (String × Int)) (k : String) (v : Int)
    (p : String × Int) (h : p ∈ insertMap m k v) : p.1 = k ∨ p ∈ m := by
  induction m with
  | nil =>
    rw [insertMap] at h
    rcases List.mem_singleton.mp h with rfl
    exact Or.inl rfl
  | cons q m ih =>
    rw [insertMap] at h
    by_cases hk : q.1 = k
    · rw [if_pos hk] at h
      rcases List.mem_cons.mp h with rfl | h1
      · exact Or.inl rfl
      · exact Or.inr (List.mem_cons_of_mem _ h1)
    · rw [if_neg hk] at h
      rcases List.mem_cons.mp h with rfl | h1
      · exact Or.inr (List.mem_cons_self _ _)
      · rcases ih h1 with h2 | h2
        · exact Or.inl h2
        · exact Or.inr (List.mem_cons_of_mem _ h2)

/-! ### The builder never inserts a numeric key except via a result field -/

theorem varToNode_getNodeForValue (s : DAGState) (v : String) :
    (getNodeForValue s v).1.varToNode = s.varToNode ∨
    ((getNodeForValue s v).1.varToNode =
        insertMap s.varToNode v ((s.nodes.length : Int)) ∧ codeNumeric v = false) := by
  unfold getNodeForValue
  split
  · exact Or.inl rfl
  · split
    · exact Or.inl rfl
    · split
      · exact Or.inl rfl
      · next hnum => exact Or.inr ⟨rfl, Bool.not_eq_true _ ▸ eq_false_of_ne_true hnum⟩

theorem goodKeys_insert (m : List (String × Int)) (k : String) (v : Int)
    (hm : ∀ p ∈ m, specNumeric p.1 = false) (hk : specNumeric k = false) :
    ∀ p ∈ insertMap m k v, specNumeric p.1 = false := by
  intro p hp
  rcases mem_insertMap m k v p hp with h1 | h1
  · rw [h1]; exact hk
  · exact hm p h1

theorem goodKeys_getNodeForValue (s : DAGState) (v : String)
    (h : ∀ p ∈ s.varToNode, specNumeric p.1 = false) :
    ∀ p ∈ (getNodeForValue s v).1.varToNode, specNumeric p.1 = false := by
  rcases varToNode_getNodeForValue s v with h1 | ⟨h1, h2⟩
  · rw [h1]; exact h
  · rw [h1]
    exact goodKeys_insert _ _ _ h (codeNumeric_false_specNumeric_false v h2)

theorem goodKeys_bindAlias (s s2 : DAGState) (res : String) (nid : Int)
    (hres : specNumeric res = false)
    (h : ∀ p ∈ s.varToNode, specNumeric p.1 = false)
    (hok : bindAlias s res nid = .ok s2) :
    ∀ p ∈ s2.varToNode, specNumeric p.1 = false := by
  simp only [bindAlias] at hok
  split at hok
  · exact absurd hok (by simp)
  · cases hok
    exact goodKeys_insert _ _ _ h hres

theorem goodKeys_resolveOperands (s : DAGState) (q : Quadruple)
    (h : ∀ p ∈ s.varToNode, specNumeric p.1 = false) :
    ∀ p ∈ (resolveOperands s q).1.varToNode, specNumeric p.1 = false := by
  by_cases h2 : q.arg2 = ""
  · simp only [resolveOperands, h2, if_pos]
    exact goodKeys_getNodeForValue s q.arg1 h
  · simp only [resolveOperands, if_neg h2]
    exact goodKeys_getNodeForValue _ q.arg2 (goodKeys_getNodeForValue s q.arg1 h)

theorem goodKeys_buildStep (s s2 : DAGState) (q : Quadruple)
    (hres : specNumeric q.result = false)
    (h : ∀ p ∈ s.varToNode, specNumeric p.1 = false)
    (hok : buildStep s q = .ok s2) :
    ∀ p ∈ s2.varToNode, specNumeric p.1 = false := by
  unfold buildStep at hok
  split at hok
  · split at hok
    · cases hok; exact h
    · exact goodKeys_bindAlias _ _ _ _ hres (goodKeys_getNodeForValue s q.arg1 h) hok
  · split at hok
    · exact absurd hok (by simp)
    · exact goodKeys_bindAlias _ _ _ _ hres (goodKeys_getNodeForValue s _ h) hok
    · simp only [generalOpPath] at hok
      split at hok
      · refine goodKeys_bindAlias _ _ _ _ hres ?_ hok
        exact goodKeys_resolveOperands s q h
      · refine goodKeys_bindAlias _ _ _ _ hres ?_ hok
        exact goodKeys_resolveOperands s q h

theorem goodKeys_foldl (qs : List Quadruple) :
    ∀ (s0 s : DAGState),
      (∀ q ∈ qs, specNumeric q.result = false) →
      (∀ p ∈ s0.varToNode, specNumeric p.1 = false) →
      List.foldlM buildStep s0 qs = .ok s →
      ∀ p ∈ s.varToNode, specNumeric p.1 = false := by
  induction qs with
  | nil =>
    intro s0 s _ h0 hok
    cases hok
    exact h0
  | cons q qs ih =>
    intro s0 s hqs h0 hok
    rw [List.foldlM_cons] at hok
    cases hstep : buildStep s0 q with
    | error e =>
      rw [hstep] at hok
      simp only [bind, Except.bind] at hok
      exact absurd hok (by simp)
    | ok s1 =>
      rw [hstep] at hok
      simp only [bind, Except.bind] at hok
      exact ih s1 s (fun q' hq' => hqs q' (List.mem_cons_of_mem _ hq'))
        (goodKeys_buildStep s0 s1 q (hqs q (List.mem_cons_self _ _)) h0 hstep) hok

/-! ### Helper lemmas about node-array updates -/

theorem appendAliasAt_length (nodes : List DAGNode) (i : Nat) (a : String) :
    (appendAliasAt nodes i a).length = nodes.length := by
  unfold appendAliasAt
  split
  · exact List.length_set _ _ _
  · rfl

theorem concat_set_length {α : Type} (xs : List α) (x y : α) :
    (xs ++ [x]).set xs.length y = xs ++ [y] := by
  induction xs with
  | nil => rfl
  | cons a xs ih => simpa using ih

theorem appendAliasAt_concat (xs : List DAGNode) (x : DAGNode) (a : String) :
    appendAliasAt (xs ++ [x]) xs.length a =
      xs ++ [{ x with aliases := x.aliases ++ [a] }] := by
  unfold appendAliasAt
  rw [List.get?_concat_length]
  exact concat_set_length xs x _

theorem getD_of_get?_eq_some {α : Type} (l : List α) (i : Nat) (x d : α)
    (h : l.get? i = some x) : l.getD i d = x := by
  induction l generalizing i with
  | nil => exact absurd h (by simp)
  | cons a l ih =>
    cases i with
    | zero =>
      rw [List.get?_cons_zero] at h
      cases h
      rfl
    | succ i =>
      rw [List.get?_cons_succ] at h
      simpa using ih i h

theorem getD_set_self {α : Type} (l : List α) (i : Nat) (x d : α)
    (h : i < l.length) : (l.set i x).getD i d = x := by
  induction l generalizing i with
  | nil => exact absurd h (by simp)
  | cons a l ih =>
    cases i with
    | zero => rfl
    | succ i => simpa using ih i (by simpa using h)

theorem nodeAt_appendAliasAt (nodes : List DAGNode) (n : Int) (a : String)
    (h0 : ¬ n < 0) (h1 : ¬ (nodes.length : Int) ≤ n) :
    nodeAt (appendAliasAt nodes n.toNat a) n =
      { nodeAt nodes n with aliases := (nodeAt nodes n).aliases ++ [a] } := by
  have hlt : n.toNat < nodes.length := by omega
  have hget : nodes.get? n.toNat = some (nodes.get ⟨n.toNat, hlt⟩) :=
    List.get?_eq_get hlt
  have hAt : nodeAt nodes n = nodes.get ⟨n.toNat, hlt⟩ :=
    getD_of_get?_eq_some _ _ _ _ hget
  have hstep : appendAliasAt nodes n.toNat a =
      nodes.set n.toNat
        { nodes.get ⟨n.toNat, hlt⟩ with
            aliases := (nodes.get ⟨n.toNat, hlt⟩).aliases ++ [a] } := by
    unfold appendAliasAt
    rw [hget]
  rw [hAt, hstep]
  exact getD_set_self _ _ _ _ hlt

/-! ### Claim theorems -/

/-- C3: common-subexpression elimination. For every state and non-copy,
non-folded instruction whose operands resolve to node ids already
registered in the expression signature index under the same operator (with
the registered id in range), the builder creates no new node: the step
succeeds, the node count is unchanged, the result name is bound to the
existing node id, and the result name is appended to that node's alias
list. On the spec's example, `(*, A, B, T1)` followed by `(*, A, B, T4)`
emits exactly one `*` instruction, feeding `T4` via a copy. -/
theorem C3_cse :
    (∀ (s s2 : DAGState) (q : Quadruple) (l r n : Int),
      ¬ q.op = "=" →
      evaluateConstant q.op q.arg1 q.arg2 = .ok none →
      resolveOperands s q = (s2, l, r) →
      lookupMap s2.exprToNode (exprKey q.op l r) = some n →
      ¬ n < 0 → ¬ (s2.nodes.length : Int) ≤ n →
      buildStep s q = .ok
        { nodes := appendAliasAt s2.nodes n.toNat q.result,
          varToNode := insertMap s2.varToNode q.result n,
          exprToNode := s2.exprToNode } ∧
      (appendAliasAt s2.nodes n.toNat q.result).length = s2.nodes.length ∧
      lookupMap (insertMap s2.varToNode q.result n) q.result = some n ∧
      nodeAt (appendAliasAt s2.nodes n.toNat q.result) n =
        { nodeAt s2.nodes n with
            aliases := (nodeAt s2.nodes n).aliases ++ [q.result] }) ∧
    optimize [⟨"*", "A", "B", "T1"⟩, ⟨"*", "A", "B", "T4"⟩] =
      .ok [⟨"*", "A", "B", "T1"⟩, ⟨"=", "T1", "", "T4"⟩] := by
  constructor
  · intro s s2 q l r n hop hconst hres hlk h0 h1
    have hstep : buildStep s q = bindAlias s2 q.result n := by
      simp only [buildStep, if_neg hop, hconst, generalOpPath, hres]
      rw [hlk]
    refine ⟨?_, appendAliasAt_length _ _ _, lookupMap_insertMap_self _ _ _,
      nodeAt_appendAliasAt _ _ _ h0 h1⟩
    rw [hstep]
    simp only [bindAlias]
    split
    · rename_i hcond
      exfalso
      rcases hcond with hlt | hge
      · exact h0 hlt
      · exact h1 hge
    · rfl
  · rfl

theorem C3_cse_witness :
    buildStep sC3 ⟨"*", "A", "B", "T4"⟩ = .ok
      { nodes := appendAliasAt sC3.nodes (2 : Int).toNat "T4",
        varToNode := insertMap sC3.varToNode "T4" 2,
        exprToNode := sC3.exprToNode } ∧
    (appendAliasAt sC3.nodes (2 : Int).toNat "T4").length = sC3.nodes.length ∧
    lookupMap (insertMap sC3.varToNode "T4" 2) "T4" = some 2 ∧
    nodeAt (appendAliasAt sC3.nodes (2 : Int).toNat "T4") 2 =
      { nodeAt sC3.nodes 2 with
          aliases := (nodeAt sC3.nodes 2).aliases ++ ["T4"] } :=
  C3_cse.1 sC3 sC3 ⟨"*", "A", "B", "T4"⟩ 0 1 2 (by decide) rfl rfl rfl
    (by decide) (by decide)

/-- C4 (counterexample): the claim "a foldable instruction binds its result
to a leaf node holding the literal result, and the output contains a copy
of that literal into the result" fails when the literal result string is
already a key of the bindings map: after `(=, A, , 6)` has bound the key
`"6"`, folding `(+, 3, 3, X)` binds `X` to the leaf holding the variable
`A`, and the output copies `A`, not `6`, into `X`. -/
theorem C4_counterexample :
    buildDAG shadowInput = .ok shadowState ∧
    lookupMap shadowState.varToNode "X" = some 0 ∧
    (nodeAt shadowState.nodes 0).isLeaf = true ∧
    (nodeAt shadowState.nodes 0).op = "A" ∧
    ¬ (nodeAt shadowState.nodes 0).op = "6" ∧
    optimize shadowInput = .ok [⟨"=", "A", "", "6"⟩, ⟨"=", "A", "", "X"⟩] ∧
    ¬ (⟨"=", "6", "", "X"⟩ : Quadruple) ∈
        [(⟨"=", "A", "", "6"⟩ : Quadruple), ⟨"=", "A", "", "X"⟩] :=
  ⟨rfl, rfl, rfl, rfl, by decide, rfl, by decide⟩

/-- C4 (amended): constant folding. For every state and instruction
`(op, a, b, res)` with `a`, `b` numeric literal tokens, `op` one of
`+ - * /` (with a nonzero literal divisor for `/`), and whose literal
result string is not currently a key of the bindings map, the builder
appends a fresh leaf node holding the textual value of the standard
integer arithmetic result (`/` truncating toward zero) with `res` as its
only alias, binds `res` to it, and leaves the expression index unchanged.
The input `(*, 2, 3, X)` optimizes to exactly `[(=, 6, , X)]`, with no `*`
instruction. -/
theorem C4_constant_folding :
    (∀ (s : DAGState) (op a b res : String),
      specNumeric a = true → specNumeric b = true →
      (op = "+" ∨ op = "-" ∨ op = "*" ∨ op = "/") →
      (op = "/" → ¬ specValue b = 0) →
      lookupMap s.varToNode (toString (arithOp op (specValue a) (specValue b))) = none →
      buildStep s ⟨op, a, b, res⟩ = .ok
        { nodes := s.nodes ++
            [⟨(s.nodes.length : Int),
              toString (arithOp op (specValue a) (specValue b)), -1, -1, [res]⟩],
          varToNode := insertMap s.varToNode res (s.nodes.length : Int),
          exprToNode := s.exprToNode }) ∧
    optimize [⟨"*", "2", "3", "X"⟩] = .ok [⟨"=", "6", "", "X"⟩] := by
  constructor
  · intro s op a b res ha hb hops hdiv hlk
    have hane := specNumeric_ne_empty a ha
    have hbne := specNumeric_ne_empty b hb
    have hca := specNumeric_imp_codeNumeric a ha
    have hcb := specNumeric_imp_codeNumeric b hb
    have hopne : ¬ op = "=" := by
      rcases hops with rfl | rfl | rfl | rfl <;> decide
    have hconst : evaluateConstant op a b =
        .ok (some (toString (arithOp op (specValue a) (specValue b)))) := by
      rcases hops with rfl | rfl | rfl | rfl
      · simp [evaluateConstant, hane, hbne, hca, hcb,
          cppStoi_specNumeric a ha, cppStoi_specNumeric b hb, arithOp]
      · simp [evaluateConstant, hane, hbne, hca, hcb,
          cppStoi_specNumeric a ha, cppStoi_specNumeric b hb, arithOp]
      · simp [evaluateConstant, hane, hbne, hca, hcb,
          cppStoi_specNumeric a ha, cppStoi_specNumeric b hb, arithOp]
      · simp [evaluateConstant, hane, hbne, hca, hcb, hdiv rfl,
          cppStoi_specNumeric a ha, cppStoi_specNumeric b hb, arithOp]
    have hgv : getNodeForValue s (toString (arithOp op (specValue a) (specValue b))) =
        ({ s with nodes := s.nodes ++
            [⟨(s.nodes.length : Int),
              toString (arithOp op (specValue a) (specValue b)), -1, -1, []⟩] },
          (s.nodes.length : Int)) := by
      simp [getNodeForValue,
        intRepr_ne_empty (arithOp op (specValue a) (specValue b)), hlk,
        codeNumeric_intRepr]
    have hstep : buildStep s ⟨op, a, b, res⟩ =
        bindAlias
          { s with nodes := s.nodes ++
              [⟨(s.nodes.length : Int),
                toString (arithOp op (specValue a) (specValue b)), -1, -1, []⟩] }
          res (s.nodes.length : Int) := by
      simp only [buildStep, if_neg hopne, hconst, hgv]
    rw [hstep]
    simp only [bindAlias]
    split
    · rename_i hcond
      exfalso
      rcases hcond with hlt | hge
      · omega
      · rw [List.length_append] at hge
        simp only [List.length_singleton] at hge
        omega
    · rw [show ((s.nodes.length : Int)).toNat = s.nodes.length from Int.toNat_ofNat _,
        appendAliasAt_concat]
      simp
  · rfl

theorem C4_constant_folding_witness :
    buildStep emptyState ⟨"*", "2", "3", "X"⟩ = .ok
      { nodes := emptyState.nodes ++
          [⟨(emptyState.nodes.length : Int),
            toString (arithOp "*" (specValue "2") (specValue "3")), -1, -1, ["X"]⟩],
        varToNode := insertMap emptyState.varToNode "X" (emptyState.nodes.length : Int),
        exprToNode := emptyState.exprToNode } :=
  C4_constant_folding.1 emptyState "*" "2" "3" "X" (by decide) (by decide)
    (Or.inr (Or.inr (Or.inl rfl))) (fun h => absurd h (by decide)) rfl

/-- C5: division by a literal zero is never folded. For every state and
instruction `(/, a, b, res)` with `a`, `b` numeric literals and `b` of
value zero, `evaluateConstant` declines the fold (without raising) and the
builder takes the general operation path; the input `(/, 6, 0, X)`
optimizes to the live instruction `(/, 6, 0, X)` itself. -/
theorem C5_div_zero_not_folded :
    (∀ (s : DAGState) (a b res : String),
      specNumeric a = true → specNumeric b = true → specValue b = 0 →
      evaluateConstant "/" a b = .ok none ∧
      buildStep s ⟨"/", a, b, res⟩ = generalOpPath s ⟨"/", a, b, res⟩) ∧
    optimize [⟨"/", "6", "0", "X"⟩] = .ok [⟨"/", "6", "0", "X"⟩] := by
  constructor
  · intro s a b res ha hb hb0
    have hane := specNumeric_ne_empty a ha
    have hbne := specNumeric_ne_empty b hb
    have hca := specNumeric_imp_codeNumeric a ha
    have hcb := specNumeric_imp_codeNumeric b hb
    have hconst : evaluateConstant "/" a b = .ok none := by
      simp [evaluateConstant, hane, hbne, hca, hcb, hb0,
        cppStoi_specNumeric a ha, cppStoi_specNumeric b hb]
    refine ⟨hconst, ?_⟩
    simp [buildStep, hconst]
  · rfl

theorem C5_div_zero_not_folded_witness :
    evaluateConstant "/" "6" "0" = .ok none ∧
    buildStep emptyState ⟨"/", "6", "0", "X"⟩ =
      generalOpPath emptyState ⟨"/", "6", "0", "X"⟩ :=
  C5_div_zero_not_folded.1 emptyState "6" "0" "X" (by decide) (by decide) (by decide)

/-! ### The emitter only emits computations of reachable nodes -/

theorem emitFor_spec (nodes : List DAGNode) (i : Int) (q : Quadruple)
    (hq : q ∈ emitFor nodes i) :
    q.op = "=" ∨
      ((nodeAt nodes i).isLeaf = false ∧ ¬ (nodeAt nodes i).aliases = [] ∧
        q = opQuadOf nodes i) := by
  simp only [emitFor] at hq
  split at hq
  · rename_i hleaf
    split at hq
    · exact absurd hq (List.not_mem_nil q)
    · rename_i a rest halias
      rcases List.mem_cons.mp hq with rfl | hq'
      · refine Or.inr ⟨hleaf, ?_, rfl⟩
        rw [halias]
        exact List.cons_ne_nil _ _
      · rcases List.mem_map.mp hq' with ⟨al, -, rfl⟩
        exact Or.inl rfl
  · split at hq
    · rcases List.mem_map.mp hq with ⟨al, -, rfl⟩
      exact Or.inl rfl
    · split at hq
      · rcases List.mem_map.mp hq with ⟨al, -, rfl⟩
        exact Or.inl rfl
      · exact absurd hq (List.not_mem_nil q)

theorem EmittedFrom_lift_left (nodes : List DAGNode) (i : Int)
    (h0 : ¬ i < 0) (h1 : ¬ (nodes.length : Int) ≤ i)
    (hL : (nodeAt nodes i).left ≠ -1) (q : Quadruple)
    (h : EmittedFrom nodes (nodeAt nodes i).left q) : EmittedFrom nodes i q := by
  rcases h with h | ⟨n, hn, hrest⟩
  · exact Or.inl h
  · exact Or.inr ⟨n, Reach.viaLeft i n h0 h1 hL hn, hrest⟩

theorem EmittedFrom_lift_right (nodes : List DAGNode) (i : Int)
    (h0 : ¬ i < 0) (h1 : ¬ (nodes.length : Int) ≤ i)
    (hR : (nodeAt nodes i).right ≠ -1) (q : Quadruple)
    (h : EmittedFrom nodes (nodeAt nodes i).right q) : EmittedFrom nodes i q := by
  rcases h with h | ⟨n, hn, hrest⟩
  · exact Or.inl h
  · exact Or.inr ⟨n, Reach.viaRight i n h0 h1 hR hn, hrest⟩

theorem processNode_spec (nodes : List DAGNode) (fuel : Nat) :
    ∀ (i : Int) (st : List Bool × List Quadruple) (q : Quadruple),
      q ∈ (processNode nodes fuel i st).2 →
      q ∈ st.2 ∨ EmittedFrom nodes i q := by
  induction fuel with
  | zero => intro i st q hq; exact Or.inl hq
  | succ fuel ih =>
    intro i st q hq
    rw [processNode] at hq
    split at hq
    · exact Or.inl hq
    · split at hq
      · exact Or.inl hq
      · split at hq
        · exact Or.inl hq
        · rename_i h0 h1 h2
          dsimp only at hq
          rcases List.mem_append.mp hq with hq1 | hq2
          · have hstep1 :
                q ∈ (if ((nodeAt nodes i).left != -1) = true
                    then processNode nodes fuel (nodeAt nodes i).left st else st).2 ∨
                  EmittedFrom nodes i q := by
              by_cases hR : ((nodeAt nodes i).right != -1) = true
              · rw [if_pos hR] at hq1
                rcases ih _ _ q hq1 with h | h
                · exact Or.inl h
                · exact Or.inr
                    (EmittedFrom_lift_right nodes i h0 h1 (bne_iff_ne.mp hR) q h)
              · rw [if_neg hR] at hq1
                exact Or.inl hq1
            rcases hstep1 with hq1' | h
            · by_cases hL : ((nodeAt nodes i).left != -1) = true
              · rw [if_pos hL] at hq1'
                rcases ih _ _ q hq1' with h | h
                · exact Or.inl h
                · exact Or.inr
                    (EmittedFrom_lift_left nodes i h0 h1 (bne_iff_ne.mp hL) q h)
              · rw [if_neg hL] at hq1'
                exact Or.inl hq1'
            · exact Or.inr h
          · rcases emitFor_spec nodes i q hq2 with h | ⟨hl, ha, hopq⟩
            · exact Or.inr (Or.inl h)
            · exact Or.inr (Or.inr ⟨i, Reach.refl i, hl, ha, hopq⟩)

theorem genFold_spec (s : DAGState) (req : List Int) :
    ∀ (st : List Bool × List Quadruple) (q : Quadruple),
      q ∈ (req.foldl (fun st r => processNode s.nodes (s.nodes.length + 1) r st) st).2 →
      q ∈ st.2 ∨ ∃ r ∈ req, EmittedFrom s.nodes r q := by
  induction req with
  | nil => intro st q hq; exact Or.inl hq
  | cons r rs ih =>
    intro st q hq
    rw [List.foldl_cons] at hq
    rcases ih _ q hq with h | ⟨r', hr', h⟩
    · rcases processNode_spec s.nodes _ r st q h with h1 | h1
      · exact Or.inl h1
      · exact Or.inr ⟨r, List.mem_cons_self _ _, h1⟩
    · exact Or.inr ⟨r', List.mem_cons_of_mem _ hr', h⟩

/-- C6 (counterexample): the first instruction `(+, A, B, T1)` of
`deadInput` is a computed instruction whose only binding `T1` is later
rebound to node `5` (the leaf for the literal `5`), and after the build no
variable is bound to its node `2`; yet the emitted output still contains
`(+, A, B, T1)`, because node `2` is an operand of the live node `4` and
its stale alias list is nonempty. -/
theorem C6_counterexample :
    buildDAG deadInput = .ok deadState ∧
    (deadState.varToNode.all fun p => p.2 != 2) = true ∧
    (nodeAt deadState.nodes 2).isLeaf = false ∧
    (nodeAt deadState.nodes 2).op = "+" ∧
    generateQuadruples deadState =
      [⟨"+", "A", "B", "T1"⟩, ⟨"-", "T1", "C", "T2"⟩, ⟨"=", "5", "", "T1"⟩] ∧
    (⟨"+", "A", "B", "T1"⟩ : Quadruple) ∈ generateQuadruples deadState :=
  ⟨rfl, rfl, rfl, rfl, rfl, by decide⟩

/-- C6 (amended): dead value elimination with a reachability proviso. Every
non-copy instruction in the emitted output is the operation emission of a
node reachable (through operand edges) from some node of the required set,
i.e. from a node still bound to a variable; hence a computed value with no
remaining binding that is also not reachable from any live binding
contributes no instruction. In particular, `[(+, A, B, T1), (=, 5, , T1)]`
optimizes to `[(=, 5, , T1)]` — the dead `+` is gone. -/
theorem C6_dead_value_elimination :
    (∀ (s : DAGState) (q : Quadruple),
      q ∈ generateQuadruples s → ¬ q.op = "=" →
      ∃ r n : Int, r ∈ requiredList s ∧ Reach s.nodes r n ∧
        (nodeAt s.nodes n).isLeaf = false ∧ ¬ (nodeAt s.nodes n).aliases = [] ∧
        q = opQuadOf s.nodes n) ∧
    optimize [⟨"+", "A", "B", "T1"⟩, ⟨"=", "5", "", "T1"⟩] =
      .ok [⟨"=", "5", "", "T1"⟩] := by
  constructor
  · intro s q hq hop
    unfold generateQuadruples at hq
    split at hq
    · exact absurd hq (List.not_mem_nil q)
    · rcases genFold_spec s (requiredList s) _ q hq with h | ⟨r, hr, h⟩
      · exact absurd h (List.not_mem_nil q)
      · rcases h with h | ⟨n, hn, h1, h2, h3⟩
        · exact absurd h hop
        · exact ⟨r, n, hr, hn, h1, h2, h3⟩
  · rfl

theorem C6_dead_value_elimination_witness :
    ∃ r n : Int, r ∈ requiredList sC3 ∧ Reach sC3.nodes r n ∧
      (nodeAt sC3.nodes n).isLeaf = false ∧ ¬ (nodeAt sC3.nodes n).aliases = [] ∧
      (⟨"*", "A", "B", "T1"⟩ : Quadruple) = opQuadOf sC3.nodes n :=
  C6_dead_value_elimination.1 sC3 ⟨"*", "A", "B", "T1"⟩ (by decide) (by decide)

/-- C8 (counterexample): numeric tokens can become keys of the bindings
map. The copy `(=, A, , 5)` has the numeric token `"5"` in its result
field, and `buildDAG` inserts result fields into `varToNode`
unconditionally, so after the build the key `"5"` is present. -/
theorem C8_counterexample :
    buildDAG [⟨"=", "A", "", "5"⟩] = .ok numKeyState ∧
    specNumeric "5" = true ∧
    lookupMap numKeyState.varToNode "5" = some 0 ∧
    (numKeyState.varToNode.any fun p => specNumeric p.1) = true :=
  ⟨rfl, by decide, rfl, by decide⟩

/-- C8 (amended): numeric-literal tokens never enter the bindings map
through value resolution; as long as no instruction's result field is
itself a numeric-literal token, every key of the final map is
non-numeric. -/
theorem C8_no_numeric_keys :
    ∀ (qs : List Quadruple) (s : DAGState),
      (∀ q ∈ qs, specNumeric q.result = false) →
      buildDAG qs = .ok s →
      ∀ p ∈ s.varToNode, specNumeric p.1 = false :=
  fun qs s hqs hok =>
    goodKeys_foldl qs emptyState s hqs (fun p hp => absurd hp (by simp [emptyState])) hok

theorem C8_no_numeric_keys_witness :
    ∃ s : DAGState, buildDAG sampleInput = .ok s ∧
      ∀ p ∈ s.varToNode, specNumeric p.1 = false := by
  refine ⟨_, rfl, C8_no_numeric_keys sampleInput _ (by decide) rfl⟩

/-- C1: binding preservation fails. On the input
`[(*, A, B, T1), (=, B, , A)]` — which rebinds `A` to the previously
created node for `B` while the old `A` leaf stays live as an operand — the
optimizer emits the rebinding copy before the `*` instruction, so the
naive simulator binds `T1` to `B * B` in the output but to `A * B` in the
input. -/
theorem C1_binding_preservation_bug :
    optimize [⟨"*", "A", "B", "T1"⟩, ⟨"=", "B", "", "A"⟩] =
      .ok [⟨"=", "B", "", "A"⟩, ⟨"*", "A", "B", "T1"⟩] ∧
    lookupEnv (simRun [⟨"*", "A", "B", "T1"⟩, ⟨"=", "B", "", "A"⟩]) "T1" =
      some (.bin "*" (.sym "A") (.sym "B")) ∧
    lookupEnv (simRun [⟨"=", "B", "", "A"⟩, ⟨"*", "A", "B", "T1"⟩]) "T1" =
      some (.bin "*" (.sym "B") (.sym "B")) ∧
    ¬ (SimVal.bin "*" (.sym "A") (.sym "B")) = (SimVal.bin "*" (.sym "B") (.sym "B")) :=
  ⟨rfl, rfl, rfl, by decide⟩

/-- C2 (counterexample): on the hardcoded sample block the optimizer does
not fold `(+, 18, C, T5)` — constant folding is purely textual and `C` is
a variable token — so the output contains the live `+` instruction and no
copy of `20` into `T5`; the intermediate names are not elided either:
`T4` survives via the copy `(=, T1, , T4)`. -/
theorem C2_counterexample :
    optimize sampleInput = .ok sampleOutput ∧
    (⟨"+", "18", "C", "T5"⟩ : Quadruple) ∈ sampleOutput ∧
    ¬ (⟨"=", "20", "", "T5"⟩ : Quadruple) ∈ sampleOutput ∧
    (sampleOutput.all fun q => !(q.result == "T5" && q.op == "=")) = true ∧
    (⟨"=", "T1", "", "T4"⟩ : Quadruple) ∈ sampleOutput :=
  ⟨rfl, by decide, by decide, by decide, by decide⟩

/-- C2 (amended): the end-to-end behavior on the sample block. The output
is exactly `sampleOutput`: the division `(/, 6, 2, T2)` is folded to `3`
(no `/` instruction remains), the two `(*, A, B, _)` instructions are
unified into one `*` feeding `T4` through a copy, the dead first binding
`(=, 5, , C)` is elided (the only instruction binding `C` copies `2`), and
`(+, 18, C, T5)` stays a live instruction because its second operand is
the variable token `C`, which textual constant folding does not resolve. -/
theorem C2_end_to_end_actual :
    optimize sampleInput = .ok sampleOutput ∧
    (⟨"=", "3", "", "T2"⟩ : Quadruple) ∈ sampleOutput ∧
    (sampleOutput.all fun q => !(q.op == "/")) = true ∧
    (sampleOutput.filter fun q => q.op == "*" && q.arg1 == "A").length = 1 ∧
    (⟨"*", "A", "B", "T1"⟩ : Quadruple) ∈ sampleOutput ∧
    (⟨"=", "T1", "", "T4"⟩ : Quadruple) ∈ sampleOutput ∧
    (⟨"+", "18", "C", "T5"⟩ : Quadruple) ∈ sampleOutput ∧
    (sampleOutput.all fun q => !(q.result == "C") || q == ⟨"=", "2", "", "C"⟩) = true :=
  ⟨rfl, by decide, by decide, by decide, by decide, by decide, by decide, by decide⟩

/-- C7: idempotence of re-optimization fails. On `idemInput` the first
pass produces `idemOut1` and the second pass produces `idemOut2`, but the
naive simulator binds `R2` to `f(Q, B)` after `idemOut1` and to `e(U, V)`
after `idemOut2`: the second pass CSE-merges the two `f` computations
(whose operands now resolve to the same nodes) and hoists the copy into
`R2` above the re-emitted dead `(e, U, V, R2)` computation. -/
theorem C7_idempotence_bug :
    optimize idemInput = .ok idemOut1 ∧
    optimize idemOut1 = .ok idemOut2 ∧
    lookupEnv (simRun idemOut1) "R2" = some (.bin "f" (.sym "Q") (.sym "B")) ∧
    lookupEnv (simRun idemOut2) "R2" = some (.bin "e" (.sym "U") (.sym "V")) ∧
    ¬ (SimVal.bin "f" (.sym "Q") (.sym "B")) = (SimVal.bin "e" (.sym "U") (.sym "V")) :=
  ⟨rfl, rfl, rfl, rfl, by decide⟩

/-- C9: totality fails beyond the two modeled failure points. The token
`"-"` is a variable name per the spec (no digits), but the code's
character test classifies it as numeric, and `std::stoi("-")` throws
`std::invalid_argument` — a third, unmodeled failure — so
`buildDAG [(+, -, 1, X)]` raises instead of treating `-` as a variable. -/
theorem C9_totality_bug :
    buildDAG [⟨"+", "-", "1", "X"⟩] = .error .invalidArgument ∧
    specNumeric "-" = false ∧
    codeNumeric "-" = true ∧
    ¬ (OptError.invalidArgument = OptError.outOfRange) :=
  ⟨rfl, by decide, by decide, by decide⟩

/-- C10: a copy instruction with an empty `arg1` is skipped entirely: the
builder returns the state unchanged — no node is created, the result name
is not bound, no alias is appended, and the expression signature index is
untouched. -/
theorem C10_empty_copy_skip (s : DAGState) (a2 res : String) :
    buildStep s ⟨"=", "", a2, res⟩ = .ok s :=
  rfl

theorem C10_empty_copy_skip_witness :
    buildStep emptyState ⟨"=", "", "x", "Y"⟩ = .ok emptyState :=
  C10_empty_copy_skip emptyState "x" "Y"
